import Mathlib

/-!
Verification of the LegalMind hybrid retrieval engine.

This file gives a shallow embedding of the retrieval core of the repository
(`src/retrieval/hybrid_search.py`, `src/retrieval/retriever.py`,
`src/retrieval/reranker.py`, `src/retrieval/query_expansion.py`,
`src/ingestion/chunking.py`) and proves properties of it.

Modelling conventions:
- Python floats are modelled as rationals.
- External collaborators (the ChromaDB vector store, the BM25Okapi scorer,
  the OpenAI chat model, the FlashRank ranker, the langchain text splitter,
  the uuid generator, the Unicode alphabetic-character table) are parameters
  of the embedded functions; a call that can raise is modelled as a value in
  the `Except Unit` monad.
- Python dicts that are iterated in insertion order are modelled as
  association lists in insertion order; an overwrite keeps the position of
  the overwritten entry, as in CPython.
- Python string methods `lower`, `strip`, `split` are modelled by structural
  functions over the character list (`pyLower`, `pyStrip`, ...); they agree
  with CPython on the character ranges exercised here.
- `numpy.argsort` uses an unstable sort, so its tie order is unspecified; we
  model one admissible behaviour (descending, stable).  The Python `sorted`
  builtin and `list.sort` are stable, and a stable sort by a total preorder
  is a unique function, so the structural insertion sort used here is
  extensionally the sort used by the code.
-/

namespace LegalMind

/-! ## Generic helpers -/

/-- Stable insertion of `x` into a descending-sorted list: `x` goes after
every element whose key is greater than or equal to its own. -/
def insertByDesc {α : Type} (key : α → ℚ) (x : α) : List α → List α
  | [] => [x]
  | y :: ys => if key y < key x then x :: y :: ys else y :: insertByDesc key x ys

/-- Stable descending sort by a rational key (models Python
`sorted(..., reverse=True)` and `list.sort(..., reverse=True)`). -/
def sortByDesc {α : Type} (key : α → ℚ) (l : List α) : List α :=
  l.foldl (fun acc x => insertByDesc key x acc) []

/-- Split a character list at every occurrence of `c` (models
Python `str.split(sep)` at the character-list level). -/
def splitOnChar (c : Char) (l : List Char) : List (List Char) :=
  l.foldr
    (fun x acc =>
      match acc with
      | [] => [[x]]
      | cur :: rest => if x = c then [] :: cur :: rest else (x :: cur) :: rest)
    [[]]

/-- Python `str.lower` (ASCII fragment). -/
def pyLower (s : String) : String := String.mk (s.toList.map Char.toLower)

/-- Python `str.strip()`. -/
def pyStrip (s : String) : String :=
  String.mk (((s.toList.dropWhile Char.isWhitespace).reverse.dropWhile Char.isWhitespace).reverse)

/-- Python `str.lstrip(chars)`. -/
def pyLstrip (chars : List Char) (s : String) : String :=
  String.mk (s.toList.dropWhile (fun c => chars.contains c))

/-- Python `str.split()` with no argument: split on whitespace runs,
dropping empty pieces. -/
def pySplitWs (s : String) : List String :=
  ((s.toList.splitOnP Char.isWhitespace).map String.mk).filter (fun p => p ≠ "")

/-- Python `str.split(sep)` for a one-character separator. -/
def pySplitChar (c : Char) (s : String) : List String :=
  (splitOnChar c s.toList).map String.mk

/-- Lookup in an insertion-ordered association list modelling a Python
dict (`d[key]` and `d.get(key)`). -/
def findVal {β : Type} (m : List (String × β)) (key : String) : Option β :=
  (m.find? (fun p => p.1 == key)).map (fun p => p.2)

/-- Python dict assignment on an insertion-ordered association list:
overwrite in place when the key is present (CPython keeps the original
position of an overwritten key), append otherwise.  `upd` lets the stored
value depend on the overwritten one, which models in-place item mutation
such as `d[key]["field"] = v`. -/
def dictUpd {β : Type} (m : List (String × β)) (key : String) (upd : β → β)
    (ins : β) : List (String × β) :=
  if m.any (fun p => p.1 == key) then
    m.map (fun p => if p.1 == key then (p.1, upd p.2) else p)
  else m ++ [(key, ins)]

/-- Python dict assignment `d[key] = v`. -/
def dictSet {β : Type} (m : List (String × β)) (key : String) (v : β) :
    List (String × β) :=
  dictUpd m key (fun _ => v) v

/-! ## Configuration (`config/settings.py`) -/

/-- `settings.RETRIEVAL_TOP_K`. -/
def RETRIEVAL_TOP_K : Nat := 5

/-- `settings.RERANKER_TOP_N`. -/
def RERANKER_TOP_N : Nat := 3

/-- `settings.HYBRID_ALPHA`. -/
def HYBRID_ALPHA : ℚ := 6/10

/-- The Python idiom `x = x or default` applied to an optional integer
argument: `None` and `0` both fall back to the default. -/
def resolveNat (x : Option Nat) (d : Nat) : Nat :=
  match x with
  | none => d
  | some n => if n = 0 then d else n

/-! ## Hybrid search (`src/retrieval/hybrid_search.py`) -/

/-- A single search result with score and metadata
(dataclass `SearchResult`). -/
structure SearchResult where
  chunk_id : String
  text : String
  score : ℚ
  metadata : List (String × String)
deriving Repr, DecidableEq, Inhabited

/-- One stored chunk of the persisted corpus, as returned by
`collection.get` (id, document text, metadata). -/
structure CorpusEntry where
  id : String
  text : String
  meta : List (String × String)
deriving Repr, DecidableEq, Inhabited

/-- One hit returned by the ChromaDB collaborator `collection.query`
(id, document text, metadata, cosine distance). -/
structure VectorHit where
  id : String
  text : String
  meta : List (String × String)
  distance : ℚ
deriving Repr, DecidableEq, Inhabited

namespace HybridSearch

/-- `numpy` `arr.min()` on the embedded score list (the code only calls it
on non-empty lists; the `[]` case is arbitrary). -/
def npMin : List ℚ → ℚ
  | [] => 0
  | x :: xs => xs.foldl min x

/-- `numpy` `arr.max()` on the embedded score list. -/
def npMax : List ℚ → ℚ
  | [] => 0
  | x :: xs => xs.foldl max x

/-- `HybridSearch._normalize_scores`: min-max normalize scores to `[0, 1]`. -/
def _normalize_scores (scores : List ℚ) : List ℚ :=
  if scores.isEmpty then []
  else
    let mn := npMin scores
    let mx := npMax scores
    if mx - mn = 0 then List.replicate scores.length 1
    else scores.map (fun s => (s - mn) / (mx - mn))

/-- Tokenization used before querying BM25: `query.lower().split()`. -/
def tokenize (s : String) : List String := pySplitWs (pyLower s)

/-- `np.argsort(raw_scores)[::-1]`: indices of the scores in descending
score order (numpy tie order is unspecified; see the header note). -/
def argsortDesc (scores : List ℚ) : List Nat :=
  sortByDesc (fun i => scores.getD i 0) (List.range scores.length)

/-- `HybridSearch._bm25_search`.  The BM25Okapi collaborator is the
`getScores` oracle (its `get_scores` method on the tokenized query); when
the corpus is empty `_build_bm25_index` leaves the index unset and the
search returns no results. -/
def _bm25_search (corpus : List CorpusEntry) (getScores : List String → List ℚ)
    (query : String) (k : Nat) : List SearchResult :=
  if corpus.isEmpty then []
  else
    let raw := getScores (tokenize query)
    let top := (argsortDesc raw).take k
    let scoresForTop := top.map (fun i => raw.getD i 0)
    let norm := _normalize_scores scoresForTop
    (top.zip norm).map (fun p =>
      { chunk_id := (corpus.getD p.1 default).id
        text := (corpus.getD p.1 default).text
        score := p.2
        metadata := (corpus.getD p.1 default).meta })

/-- `HybridSearch._vector_search` applied to the hits returned by the
ChromaDB collaborator: cosine distances are converted to similarities via
`1 - d` and then min-max normalized. -/
def _vector_search (hits : List VectorHit) : List SearchResult :=
  if hits.isEmpty then []
  else
    let sims := hits.map (fun h => 1 - h.distance)
    let norm := _normalize_scores sims
    (hits.zip norm).map (fun p =>
      { chunk_id := p.1.id, text := p.1.text, score := p.2, metadata := p.1.meta })

/-- One value of the `score_map` dict built by `HybridSearch.search`. -/
structure FusionEntry where
  text : String
  metadata : List (String × String)
  vector_score : ℚ
  bm25_score : ℚ
deriving Repr, DecidableEq, Inhabited

/-- The first loop body of the merge in `HybridSearch.search`:
`score_map[r.chunk_id] = {..., "vector_score": r.score, "bm25_score": 0.0}`. -/
def setVec (m : List (String × FusionEntry)) (r : SearchResult) :
    List (String × FusionEntry) :=
  dictSet m r.chunk_id ⟨r.text, r.metadata, r.score, 0⟩

/-- The second loop body of the merge in `HybridSearch.search`: update the
`bm25_score` of an existing entry in place, or insert a fresh entry with
`vector_score = 0.0`. -/
def setBm (m : List (String × FusionEntry)) (r : SearchResult) :
    List (String × FusionEntry) :=
  dictUpd m r.chunk_id (fun e => { e with bm25_score := r.score })
    ⟨r.text, r.metadata, 0, r.score⟩

/-- The `score_map` dict after both merge loops of `HybridSearch.search`. -/
def buildScoreMap (vec bm : List SearchResult) : List (String × FusionEntry) :=
  bm.foldl setBm (vec.foldl setVec [])

/-- The combined-score list of `HybridSearch.search`:
`final_score = alpha * vector_score + (1 - alpha) * bm25_score`, in
`score_map` iteration order. -/
def fuse (alpha : ℚ) (vec bm : List SearchResult) : List SearchResult :=
  (buildScoreMap vec bm).map (fun p =>
    { chunk_id := p.1
      text := p.2.text
      score := alpha * p.2.vector_score + (1 - alpha) * p.2.bm25_score
      metadata := p.2.metadata })

/-- `HybridSearch.search`: fetch `3 k` candidates from each signal, fuse,
sort by combined score descending (stable), truncate to `k`. -/
def search (corpus : List CorpusEntry) (vecQuery : String → Nat → List VectorHit)
    (getScores : List String → List ℚ) (alpha : ℚ) (query : String)
    (k? : Option Nat) : List SearchResult :=
  let k := resolveNat k? RETRIEVAL_TOP_K
  let fetch_k := k * 3
  let vector_results := _vector_search (vecQuery query fetch_k)
  let bm25_results := _bm25_search corpus getScores query fetch_k
  (sortByDesc (fun r => r.score) (fuse alpha vector_results bm25_results)).take k

/-- Lookup of the score a result list assigns to a chunk id. -/
def lookupScore (rs : List SearchResult) (id : String) : Option ℚ :=
  (rs.find? (fun r => r.chunk_id == id)).map (fun r => r.score)

end HybridSearch

/-! ## Query expansion (`src/retrieval/query_expansion.py`)

The OpenAI chat collaborator is modelled as `Except Unit String` valued
oracles (one per prompt shape used by the source); a raised exception is
`Except.error ()`.  Note that neither `hyde`, `multi_query`,
`translate_query` nor `expand` contains a `try`/`except`: collaborator
errors propagate to the caller. -/

/-- The collaborator calls made by a `QueryExpander`. -/
structure ExpanderOracle where
  hydeGen : String → Except Unit String
  multiGen : String → Except Unit String
  translateGen : String → String → Except Unit String
deriving Inhabited

namespace QueryExpander

/-- `QueryExpander.hyde`: one chat-completion call; the response content
(`content or ""` collapses into the oracle result). -/
def hyde (o : ExpanderOracle) (query : String) : Except Unit String :=
  o.hydeGen query

/-- The characters stripped from the front of each multi-query line:
`lstrip("0123456789.-) ")`. -/
def enumMarkup : List Char :=
  ['0', '1', '2', '3', '4', '5', '6', '7', '8', '9', '.', '-', ')', ' ']

/-- The parsing step of `QueryExpander.multi_query`:
`[q.strip().lstrip("0123456789.-) ") for q in text.strip().split("\n") if q.strip()][:3]`. -/
def parseMulti (text : String) : List String :=
  (((pySplitChar '\n' (pyStrip text)).filterMap
      (fun q => if pyStrip q = "" then none else some (pyLstrip enumMarkup (pyStrip q))))).take 3

/-- `QueryExpander.multi_query`: one chat-completion call, parsed into at
most 3 alternative phrasings. -/
def multi_query (o : ExpanderOracle) (query : String) : Except Unit (List String) :=
  (o.multiGen query).map parseMulti

/-- `QueryExpander.translate_query`: one chat-completion call; the result
is stripped. -/
def translate_query (o : ExpanderOracle) (query target_language : String) :
    Except Unit String :=
  (o.translateGen query target_language).map pyStrip

/-- `QueryExpander.expand`: start from `[query]`, append the HyDE passage
when `use_hyde`, extend with the multi-query variations when `use_multi`.
A collaborator error in an enabled step propagates. -/
def expand (o : ExpanderOracle) (query : String) (use_hyde use_multi : Bool) :
    Except Unit (List String) := do
  let queries := [query]
  let queries ← if use_hyde then do
      let h ← hyde o query
      pure (queries ++ [h])
    else pure queries
  let queries ← if use_multi then do
      let ms ← multi_query o query
      pure (queries ++ ms)
    else pure queries
  pure queries

end QueryExpander

/-! ## Reranking (`src/retrieval/reranker.py`) -/

/-- One item of the list returned by the FlashRank collaborator
(`ranker.rerank(request)`): id, text, relevance score, metadata. -/
structure RankedItem where
  id : String
  text : String
  score : ℚ
  meta : List (String × String)
deriving Repr, DecidableEq, Inhabited

namespace ReRanker

/-- `ReRanker.rerank`.  The FlashRank collaborator (model loading plus the
`ranker.rerank` call inside the `try` block) is the `ranker` oracle; on a
raised exception the method falls back to `results[:top_n]`.  `top_n` is
defaulted with the Python idiom `top_n = top_n or self.top_n`, so both
`None` and `0` select `settings.RERANKER_TOP_N`. -/
def rerank (ranker : String → List SearchResult → Except Unit (List RankedItem))
    (query : String) (results : List SearchResult) (top_n? : Option Nat) :
    List SearchResult :=
  let top_n := resolveNat top_n? RERANKER_TOP_N
  if results.isEmpty then []
  else
    match ranker query results with
    | Except.ok reranked =>
        (reranked.take top_n).map (fun i => ⟨i.id, i.text, i.score, i.meta⟩)
    | Except.error _ => results.take top_n

end ReRanker

/-! ## Chunking (`src/ingestion/chunking.py`) -/

/-- A chunk of text with metadata and parent reference (dataclass `Chunk`). -/
structure Chunk where
  chunk_id : String
  text : String
  metadata : List (String × String)
  parent_id : Option String
deriving Repr, DecidableEq, Inhabited

/-- One page of a loaded document. -/
structure Page where
  text : String
  meta : List (String × String)
deriving Repr, DecidableEq, Inhabited

/-- A loaded document (`LoadedDocument` from `src/ingestion/loaders.py`). -/
structure LoadedDocument where
  pages : List Page
  filename : String
deriving Repr, DecidableEq, Inhabited

/-- Document split into parent and child chunks
(dataclass `ChunkedDocument`). -/
structure ChunkedDocument where
  parent_chunks : List Chunk
  child_chunks : List Chunk
  filename : String
deriving Repr, DecidableEq, Inhabited

/-- The accumulator while chunking: next fresh-id index, parents so far,
children so far. -/
structure ChunkAcc where
  next : Nat
  parents : List Chunk
  children : List Chunk
deriving Repr, Inhabited

/-- Processing of one parent span inside `chunk_document`: mint the parent
id (`str(uuid4())` is modelled by the injective-free stream `genId` applied
to a running counter), emit the parent chunk, then split it into child
spans, each of which gets a fresh id, `parent_id`, and child metadata.
Metadata dict-merge overrides are placed in front of the page metadata
because association-list lookup takes the first match. -/
def chunkParentSpan (splitChild : String → List String) (genId : Nat → String)
    (filename : String) (page : Page) (acc : ChunkAcc) (parent_text : String) :
    ChunkAcc :=
  let parent_id := genId acc.next
  let parent : Chunk :=
    { chunk_id := parent_id
      text := parent_text
      metadata := [("chunk_type", "parent"), ("filename", filename)] ++ page.meta
      parent_id := none }
  let child_texts := splitChild parent_text
  let newChildren := child_texts.enum.map (fun ic =>
    { chunk_id := genId (acc.next + 1 + ic.1)
      text := ic.2
      metadata :=
        [("chunk_type", "child"), ("parent_id", parent_id), ("filename", filename)]
          ++ page.meta
      parent_id := some parent_id : Chunk })
  { next := acc.next + 1 + child_texts.length
    parents := acc.parents ++ [parent]
    children := acc.children ++ newChildren }

/-- `chunk_document`: for each page, split into parent spans, and each
parent span into child spans.  The two `RecursiveCharacterTextSplitter`
collaborators are the `splitParent` and `splitChild` oracles. -/
def chunk_document (splitParent splitChild : String → List String)
    (genId : Nat → String) (document : LoadedDocument) : ChunkedDocument :=
  let finalAcc := document.pages.foldl
    (fun acc page =>
      (splitParent page.text).foldl
        (chunkParentSpan splitChild genId document.filename page) acc)
    ⟨0, [], []⟩
  { parent_chunks := finalAcc.parents
    child_chunks := finalAcc.children
    filename := document.filename }

/-! ## Retrieval orchestrator (`src/retrieval/retriever.py`) -/

/-- Final retrieval result with metrics (dataclass `RetrievalResult`).
The wall-clock `latency_ms` field is not part of the embedding. -/
structure RetrievalResult where
  results : List SearchResult
  expanded_queries : List String
  total_candidates : Nat
  parent_context : List (String × String)
deriving Repr, DecidableEq, Inhabited

/-- The constructor flags of `Retriever.__init__`.  `query_expander` is
constructed when `use_query_expansion or use_query_translation`. -/
structure RetrieverCfg where
  use_reranking : Bool
  use_query_expansion : Bool
  use_query_translation : Bool
deriving Repr, DecidableEq, Inhabited

/-- Whether `self.query_expander` is not `None`. -/
def hasExpander (cfg : RetrieverCfg) : Bool :=
  cfg.use_query_expansion || cfg.use_query_translation

/-- Every collaborator the retrieval pipeline talks to.  `pyAlpha` is the
Unicode alphabetic-character table behind Python `str.isalpha`; `peek` is
`collection.peek(limit=1)["documents"]`; `detectLLM` is the
language-detection chat call of `_detect_doc_language`; `parentFetch` is
`parent_collection.get(ids=[pid])["documents"]`. -/
structure Collab where
  pyAlpha : Char → Bool
  corpus : List CorpusEntry
  vecQuery : String → Nat → List VectorHit
  bm25Scores : List String → List ℚ
  alpha : ℚ
  expander : ExpanderOracle
  peek : Except Unit (List String)
  detectLLM : String → Except Unit String
  ranker : String → List SearchResult → Except Unit (List RankedItem)
  parentFetch : String → Except Unit (List String)

namespace Retriever

/-- `Retriever._detect_query_language`: a pure script heuristic.  More
Cyrillic than Latin alphabetic characters means `"Russian"`; any other
outcome is `None`. -/
def _detect_query_language (pyAlpha : Char → Bool) (query : String) :
    Option String :=
  let cyrillic := (query.toList.filter
    (fun c => decide (0x400 ≤ c.toNat ∧ c.toNat ≤ 0x4ff))).length
  let latin := (query.toList.filter (fun c => pyAlpha c && decide (c.toNat < 256))).length
  if latin < cyrillic then some "Russian" else none

/-- `Retriever._detect_doc_language`: sample one stored chunk, then ask the
chat model for its language.  The whole body is wrapped in
`try ... except: return None`, so every collaborator error yields `none`.
The source also computes an unused `latin` count inside the `try` block. -/
def _detect_doc_language (pyAlpha : Char → Bool) (peek : Except Unit (List String))
    (detectLLM : String → Except Unit String) (hasExp : Bool) : Option String :=
  let attempt : Except Unit (Option String) := do
    let docs ← peek
    match docs.head? with
    | none => pure none
    | some d =>
        let text := String.mk (d.toList.take 200)
        let total_alpha := (text.toList.filter pyAlpha).length
        if total_alpha = 0 then pure none
        else if !hasExp then pure none
        else do
          let lang ← detectLLM text
          pure (some (pyStrip lang))
  match attempt with
  | Except.ok r => r
  | Except.error _ => none

/-- Step 0 of `Retriever.retrieve` (lines 135 to 144): cross-language query
translation.  A detected non-ambiguous query language together with a
detected, different document language triggers `translate_query`; the
translation call itself is not guarded by a `try`. -/
def translationStep (cfg : RetrieverCfg) (c : Collab) (query : String) :
    Except Unit String :=
  if cfg.use_query_translation && hasExpander cfg then
    match _detect_query_language c.pyAlpha query with
    | none => pure query
    | some query_lang =>
        match _detect_doc_language c.pyAlpha c.peek c.detectLLM (hasExpander cfg) with
        | none => pure query
        | some doc_lang =>
            if doc_lang ≠ "" && pyLower doc_lang ≠ pyLower query_lang then
              QueryExpander.translate_query c.expander query doc_lang
            else pure query
  else pure query

/-- Step 1 of `Retriever.retrieve`: query expansion when an expander exists
and at least one expansion flag is set; otherwise `[search_query]`. -/
def expansionStep (cfg : RetrieverCfg) (c : Collab) (search_query : String)
    (use_hyde use_multi_query : Bool) : Except Unit (List String) :=
  if hasExpander cfg && (use_hyde || use_multi_query) then
    QueryExpander.expand c.expander search_query use_hyde use_multi_query
  else pure [search_query]

/-- The loop body of the multi-variant merge in `Retriever.retrieve`:
`if r.chunk_id not in all_results or r.score > all_results[r.chunk_id].score:
all_results[r.chunk_id] = r`. -/
def mergeStep (m : List (String × SearchResult)) (r : SearchResult) :
    List (String × SearchResult) :=
  match findVal m r.chunk_id with
  | none => dictSet m r.chunk_id r
  | some old => if old.score < r.score then dictSet m r.chunk_id r else m

/-- The `all_results` dict after merging every variant result set. -/
def mergeVariants (resultSets : List (List SearchResult)) :
    List (String × SearchResult) :=
  resultSets.foldl (fun m rs => rs.foldl mergeStep m) []

/-- All scores that a result list assigns to a chunk id, in order (used to
state what the merge keeps). -/
def variantScores (l : List SearchResult) (id : String) : List ℚ :=
  (l.filter (fun r => r.chunk_id == id)).map (fun r => r.score)

/-- Pointwise maximum of two optional scores. -/
def omax : Option ℚ → Option ℚ → Option ℚ
  | none, b => b
  | some a, none => some a
  | some a, some b => some (max a b)

/-- Step 2 of `Retriever.retrieve`: run hybrid search for every query
variant with `k = k * 2`, merge by chunk id keeping the best-scoring hit,
and sort the merged candidates by score descending. -/
def searchCandidates (c : Collab) (queries : List String) (k : Nat) :
    List SearchResult :=
  let merged := mergeVariants (queries.map (fun q =>
    HybridSearch.search c.corpus c.vecQuery c.bm25Scores c.alpha q (some (k * 2))))
  sortByDesc (fun r => r.score) (merged.map (fun p => p.2))

/-- `Retriever._get_parent_context`: collect the distinct non-empty
`parent_id` metadata values of the results and fetch each parent text,
skipping ids whose fetch raises or returns no document.  The source holds
the ids in a Python `set`, whose iteration order is unspecified; we model
one admissible order (first occurrence), which only affects the order of
the returned mapping, not its entries. -/
def _get_parent_context (parentFetch : String → Except Unit (List String))
    (results : List SearchResult) : List (String × String) :=
  let parent_ids := (results.filterMap (fun r =>
    match findVal r.metadata "parent_id" with
    | some pid => if pid = "" then none else some pid
    | none => none)).dedup
  parent_ids.filterMap (fun pid =>
    match parentFetch pid with
    | Except.ok (d :: _) => some (pid, d)
    | Except.ok [] => none
    | Except.error _ => none)

/-- `Retriever.retrieve`: the full pipeline.  `k` is defaulted via the
Python idiom `k = k or settings.RETRIEVAL_TOP_K`.  Note that the rerank
call receives the original `query` argument, not the translated
`search_query`. -/
def retrieve (cfg : RetrieverCfg) (c : Collab) (query : String) (k? : Option Nat)
    (use_hyde use_multi_query : Bool) : Except Unit RetrievalResult := do
  let k := resolveNat k? RETRIEVAL_TOP_K
  let search_query ← translationStep cfg c query
  let queries ← expansionStep cfg c search_query use_hyde use_multi_query
  let candidates := searchCandidates c queries k
  let results :=
    if cfg.use_reranking && !candidates.isEmpty then
      ReRanker.rerank c.ranker query candidates (some k)
    else candidates.take k
  pure
    { results := results
      expanded_queries := queries
      total_candidates := candidates.length
      parent_context := _get_parent_context c.parentFetch results }

end Retriever

/-! ## Concrete instances used to exercise the embedding -/

namespace Examples

/-- A FlashRank collaborator that raises on every call. -/
def errRanker : String → List SearchResult → Except Unit (List RankedItem) :=
  fun _ _ => Except.error ()

/-- A sample candidate. -/
def rC4 : SearchResult := ⟨"a", "ta", 1, []⟩

/-- A chat collaborator that raises on every call. -/
def errOracle : ExpanderOracle :=
  ⟨fun _ => Except.error (), fun _ => Except.error (), fun _ _ => Except.error ()⟩

/-- A chat collaborator that answers every call. -/
def okOracle : ExpanderOracle :=
  ⟨fun _ => Except.ok "A hypothetical clause.",
   fun _ => Except.ok "1. A\n2. B\n3. C",
   fun q _ => Except.ok q⟩

/-- A retriever with every optional stage disabled. -/
def cfgPlain : RetrieverCfg := ⟨false, false, false⟩

/-- A retriever with reranking only. -/
def cfgRerank : RetrieverCfg := ⟨true, false, false⟩

/-- A retriever with query translation only. -/
def cfgT : RetrieverCfg := ⟨false, false, true⟩

/-- Collaborators for which both language detections succeed but the
translation call raises. -/
def collabT : Collab :=
  { pyAlpha := Char.isAlpha
    corpus := []
    vecQuery := fun _ _ => []
    bm25Scores := fun _ => []
    alpha := HYBRID_ALPHA
    expander := ⟨fun _ => Except.ok "h", fun _ => Except.ok "x",
      fun _ _ => Except.error ()⟩
    peek := Except.ok ["This contract may be terminated."]
    detectLLM := fun _ => Except.ok "English"
    ranker := errRanker
    parentFetch := fun _ => Except.error () }

/-- Collaborators over an empty stored corpus. -/
def collabE : Collab :=
  { pyAlpha := Char.isAlpha
    corpus := []
    vecQuery := fun _ _ => []
    bm25Scores := fun _ => []
    alpha := HYBRID_ALPHA
    expander := errOracle
    peek := Except.error ()
    detectLLM := fun _ => Except.error ()
    ranker := errRanker
    parentFetch := fun _ => Except.error () }

/-- The single fused result that hybrid search produces over `collab1`:
both normalized signals are degenerate singletons, so both normalize to
`1` and the fused score is the full convex combination. -/
def rr : SearchResult :=
  ⟨"c1", "termination notice", HYBRID_ALPHA * 1 + (1 - HYBRID_ALPHA) * 1, []⟩

/-- Collaborators over a one-chunk stored corpus. -/
def collab1 : Collab :=
  { pyAlpha := Char.isAlpha
    corpus := [⟨"c1", "termination notice", []⟩]
    vecQuery := fun _ _ => [⟨"c1", "termination notice", [], 1/2⟩]
    bm25Scores := fun _ => [2]
    alpha := HYBRID_ALPHA
    expander := errOracle
    peek := Except.error ()
    detectLLM := fun _ => Except.error ()
    ranker := errRanker
    parentFetch := fun _ => Except.error () }

end Examples

/-! ## Generic lemmas -/

theorem foldl_preserves {α β : Type} (f : β → α → β) (P : β → Prop)
    (h : ∀ b a, P b → P (f b a)) :
    ∀ (l : List α) (b : β), P b → P (l.foldl f b) := by
  intro l
  induction l with
  | nil => intro b hb; exact hb
  | cons x xs ih => intro b hb; exact ih (f b x) (h b x hb)

theorem mem_insertByDesc {α : Type} (key : α → ℚ) (x : α) (l : List α) (a : α) :
    a ∈ insertByDesc key x l ↔ a = x ∨ a ∈ l := by
  induction l with
  | nil => simp [insertByDesc]
  | cons y ys ih =>
      by_cases h : key y < key x
      · simp [insertByDesc, h]
      · simp only [insertByDesc, if_neg h, List.mem_cons, ih]
        tauto

theorem mem_foldl_insertByDesc {α : Type} (key : α → ℚ) (l : List α) :
    ∀ (m : List α) (a : α),
      a ∈ l.foldl (fun acc x => insertByDesc key x acc) m ↔ a ∈ m ∨ a ∈ l := by
  induction l with
  | nil => simp
  | cons x xs ih =>
      intro m a
      simp only [List.foldl_cons, ih, mem_insertByDesc, List.mem_cons]
      tauto

theorem mem_sortByDesc {α : Type} (key : α → ℚ) (l : List α) (a : α) :
    a ∈ sortByDesc key l ↔ a ∈ l := by
  simp [sortByDesc, mem_foldl_insertByDesc]

theorem foldl_min_le_init (l : List ℚ) : ∀ a : ℚ, l.foldl min a ≤ a := by
  induction l with
  | nil => intro a; exact le_refl a
  | cons x xs ih =>
      intro a
      exact le_trans (ih (min a x)) (min_le_left a x)

theorem foldl_min_le_mem (l : List ℚ) :
    ∀ (a x : ℚ), x ∈ l → l.foldl min a ≤ x := by
  induction l with
  | nil => intro a x hx; cases hx
  | cons y ys ih =>
      intro a x hx
      rcases List.mem_cons.mp hx with rfl | hx
      · exact le_trans (foldl_min_le_init ys (min a x)) (min_le_right a x)
      · exact ih (min a y) x hx

theorem init_le_foldl_max (l : List ℚ) : ∀ a : ℚ, a ≤ l.foldl max a := by
  induction l with
  | nil => intro a; exact le_refl a
  | cons x xs ih =>
      intro a
      exact le_trans (le_max_left a x) (ih (max a x))

theorem mem_le_foldl_max (l : List ℚ) :
    ∀ (a x : ℚ), x ∈ l → x ≤ l.foldl max a := by
  induction l with
  | nil => intro a x hx; cases hx
  | cons y ys ih =>
      intro a x hx
      rcases List.mem_cons.mp hx with rfl | hx
      · exact le_trans (le_max_right a x) (init_le_foldl_max ys (max a x))
      · exact ih (max a y) x hx

theorem foldl_max_comm (l : List ℚ) :
    ∀ a b : ℚ, l.foldl max (max a b) = max a (l.foldl max b) := by
  induction l with
  | nil => intro a b; rfl
  | cons c cs ih =>
      intro a b
      simp only [List.foldl_cons, max_assoc, ih]

/-! ## Lemmas about the embedded Python dict operations -/

theorem find?_map_of_keyfix {β : Type} (g : (String × β) → (String × β))
    (hg : ∀ p, (g p).1 = p.1) (m : List (String × β)) (key : String) :
    (m.map g).find? (fun p => p.1 == key) =
      (m.find? (fun p => p.1 == key)).map g := by
  induction m with
  | nil => rfl
  | cons x xs ih =>
      simp only [List.map_cons, List.find?_cons, hg x]
      by_cases h : (x.1 == key) = true
      · simp [h]
      · simp [h, ih]

theorem findVal_dictUpd_self {β : Type} (m : List (String × β)) (key : String)
    (upd : β → β) (ins : β) :
    findVal (dictUpd m key upd ins) key =
      match findVal m key with
      | some e => some (upd e)
      | none => some ins := by
  by_cases h : m.any (fun p => p.1 == key) = true
  · rw [dictUpd, if_pos h, findVal,
      find?_map_of_keyfix (fun p => if p.1 == key then (p.1, upd p.2) else p)
        (fun p => by by_cases hp : (p.1 == key) = true <;> simp [hp]) m key]
    rcases List.any_eq_true.mp h with ⟨p, hp, hpk⟩
    have hsome : (m.find? (fun p => p.1 == key)).isSome := by
      rw [List.find?_isSome]
      exact ⟨p, hp, hpk⟩
    rcases Option.isSome_iff_exists.mp hsome with ⟨q, hq⟩
    have hq1 : q.1 = key := by simpa using List.find?_some hq
    rw [hq, findVal, hq]
    simp [hq1]
  · have hnone : m.find? (fun p => p.1 == key) = none := by
      rw [List.find?_eq_none]
      intro p hp
      intro hpk
      exact h (List.any_eq_true.mpr ⟨p, hp, hpk⟩)
    have hfv : findVal m key = none := by rw [findVal, hnone]; rfl
    rw [dictUpd, if_neg h, findVal, List.find?_append, hnone, Option.none_or, hfv]
    simp [List.find?_cons]

theorem findVal_dictUpd_ne {β : Type} (m : List (String × β)) (key : String)
    (upd : β → β) (ins : β) (id : String) (hne : key ≠ id) :
    findVal (dictUpd m key upd ins) id = findVal m id := by
  by_cases h : m.any (fun p => p.1 == key) = true
  · rw [dictUpd, if_pos h, findVal,
      find?_map_of_keyfix (fun p => if p.1 == key then (p.1, upd p.2) else p)
        (fun p => by by_cases hp : (p.1 == key) = true <;> simp [hp]) m id]
    cases hfind : m.find? (fun p => p.1 == id) with
    | none => rw [findVal, hfind]; rfl
    | some q =>
        have hq : q.1 = id := by simpa using List.find?_some hfind
        rw [findVal, hfind]
        simp [hq, Ne.symm hne]
  · rw [dictUpd, if_neg h, findVal, List.find?_append]
    have hsing : ([(key, ins)].find? (fun p => p.1 == id)) = none := by
      rw [List.find?_eq_none]
      intro p hp
      rcases List.mem_singleton.mp hp with rfl
      simpa using hne
    rw [hsing, Option.or_none]
    rfl

theorem findVal_dictSet_self {β : Type} (m : List (String × β)) (key : String)
    (v : β) : findVal (dictSet m key v) key = some v := by
  rw [dictSet, findVal_dictUpd_self]
  cases findVal m key <;> rfl

theorem findVal_dictSet_ne {β : Type} (m : List (String × β)) (key : String)
    (v : β) (id : String) (hne : key ≠ id) :
    findVal (dictSet m key v) id = findVal m id :=
  findVal_dictUpd_ne m key _ v id hne

/-! ## Lemmas about score normalization -/

namespace HybridSearch

theorem npMin_le_mem (l : List ℚ) (x : ℚ) (hx : x ∈ l) : npMin l ≤ x := by
  cases l with
  | nil => cases hx
  | cons y ys =>
      rcases List.mem_cons.mp hx with rfl | hx
      · exact foldl_min_le_init ys x
      · exact foldl_min_le_mem ys y x hx

theorem mem_le_npMax (l : List ℚ) (x : ℚ) (hx : x ∈ l) : x ≤ npMax l := by
  cases l with
  | nil => cases hx
  | cons y ys =>
      rcases List.mem_cons.mp hx with rfl | hx
      · exact init_le_foldl_max ys x
      · exact mem_le_foldl_max ys y x hx

theorem mem_normalize_bounds (l : List ℚ) (x : ℚ)
    (hx : x ∈ _normalize_scores l) : 0 ≤ x ∧ x ≤ 1 := by
  cases l with
  | nil => simp [_normalize_scores] at hx
  | cons y ys =>
      rw [_normalize_scores] at hx
      simp only [List.isEmpty_cons, if_false, Bool.false_eq_true] at hx
      by_cases hdeg : npMax (y :: ys) - npMin (y :: ys) = 0
      · rw [if_pos hdeg] at hx
        have := List.eq_of_mem_replicate hx
        subst this
        exact ⟨zero_le_one, le_refl 1⟩
      · rw [if_neg hdeg] at hx
        rcases List.mem_map.mp hx with ⟨s, hs, rfl⟩
        have hmn : npMin (y :: ys) ≤ s := npMin_le_mem _ s hs
        have hmx : s ≤ npMax (y :: ys) := mem_le_npMax _ s hs
        have hmm : npMin (y :: ys) ≤ npMax (y :: ys) :=
          le_trans (npMin_le_mem _ y (List.mem_cons_self y ys))
            (mem_le_npMax _ y (List.mem_cons_self y ys))
        have hpos : 0 < npMax (y :: ys) - npMin (y :: ys) := by
          rcases lt_or_eq_of_le hmm with h | h
          · linarith
          · exact absurd (by rw [h]; ring) hdeg
        constructor
        · exact div_nonneg (by linarith) (le_of_lt hpos)
        · rw [div_le_one hpos]
          linarith

theorem normalize_length (l : List ℚ) : (_normalize_scores l).length = l.length := by
  cases l with
  | nil => rfl
  | cons y ys =>
      rw [_normalize_scores]
      simp only [List.isEmpty_cons, if_false, Bool.false_eq_true]
      by_cases hdeg : npMax (y :: ys) - npMin (y :: ys) = 0
      · rw [if_pos hdeg, List.length_replicate]
      · rw [if_neg hdeg, List.length_map]

end HybridSearch

/-! ## Claim C1 -/

/-- Claim C1: the score-normalization function is exact min-max
normalization to the unit interval.  For a non-empty list whose max
strictly exceeds its min it maps each score `s` to
`(s - min) / (max - min)`; for a non-empty list whose max equals its min it
returns `1` everywhere; for the empty list it returns the empty list; and
`normalize [0.1, 0.5, 0.9] = [0.0, 0.5, 1.0]`.  The min and max are stated
through the independent `List.min?` and `List.max?` functions. -/
theorem normalize_is_exact_minmax :
    HybridSearch._normalize_scores [] = [] ∧
    (∀ (scores : List ℚ) (mn mx : ℚ),
      scores.min? = some mn → scores.max? = some mx →
      ((mx ≠ mn →
          HybridSearch._normalize_scores scores =
            scores.map (fun s => (s - mn) / (mx - mn))) ∧
        (mx = mn →
          HybridSearch._normalize_scores scores =
            List.replicate scores.length 1))) ∧
    HybridSearch._normalize_scores [1/10, 1/2, 9/10] = [0, 1/2, 1] := by
  refine ⟨rfl, ?_, ?_⟩
  · intro scores mn mx hmn hmx
    cases scores with
    | nil => cases hmn
    | cons y ys =>
        have hmn' : HybridSearch.npMin (y :: ys) = mn := by
          have : some (ys.foldl min y) = some mn := hmn
          exact Option.some.inj this
        have hmx' : HybridSearch.npMax (y :: ys) = mx := by
          have : some (ys.foldl max y) = some mx := hmx
          exact Option.some.inj this
        constructor
        · intro hne
          rw [HybridSearch._normalize_scores]
          simp only [List.isEmpty_cons, if_false, Bool.false_eq_true]
          rw [hmn', hmx', if_neg (sub_ne_zero_of_ne hne)]
        · intro heq
          rw [HybridSearch._normalize_scores]
          simp only [List.isEmpty_cons, if_false, Bool.false_eq_true]
          rw [hmn', hmx', if_pos (by rw [heq, sub_self])]
  · rw [HybridSearch._normalize_scores]
    norm_num [HybridSearch.npMin, HybridSearch.npMax, min_def, max_def]

/-- Concrete instantiation of `normalize_is_exact_minmax`: an all-tied
list normalizes to all ones, and the worked example holds. -/
theorem normalize_is_exact_minmax_witness :
    HybridSearch._normalize_scores [2, 2] = List.replicate 2 1 ∧
    HybridSearch._normalize_scores [1/10, 1/2, 9/10] = [0, 1/2, 1] := by
  constructor
  · exact (normalize_is_exact_minmax.2.1 [2, 2] 2 2
      (by rw [show ([2, 2] : List ℚ).min? = some (min 2 2) from rfl, min_self])
      (by rw [show ([2, 2] : List ℚ).max? = some (max 2 2) from rfl, max_self])).2 rfl
  · exact normalize_is_exact_minmax.2.2

/-! ## Lemmas about hybrid fusion -/

namespace HybridSearch

theorem findVal_foldl_setVec :
    ∀ (vec : List SearchResult), (vec.map (fun r => r.chunk_id)).Nodup →
    ∀ (m : List (String × FusionEntry)) (id : String),
      findVal (vec.foldl setVec m) id =
        match vec.find? (fun r => r.chunk_id == id) with
        | some r => some ⟨r.text, r.metadata, r.score, 0⟩
        | none => findVal m id := by
  intro vec
  induction vec with
  | nil => intro _ m id; rfl
  | cons r rest ih =>
      intro hv m id
      rw [List.map_cons, List.nodup_cons] at hv
      obtain ⟨hhead, htail⟩ := hv
      rw [List.foldl_cons, ih htail (setVec m r) id, List.find?_cons]
      cases hid : (r.chunk_id == id) with
      | true =>
          have hid' : r.chunk_id = id := by simpa using hid
          have hrest : rest.find? (fun x => x.chunk_id == id) = none := by
            rw [List.find?_eq_none]
            intro x hx hxk
            have hx1 : x.chunk_id = id := by simpa using hxk
            rw [← hid'] at hx1
            have hmem : x.chunk_id ∈ rest.map (fun r => r.chunk_id) :=
              List.mem_map_of_mem (fun r => r.chunk_id) hx
            rw [hx1] at hmem
            exact hhead hmem
          rw [hrest]
          have : findVal (setVec m r) id = some ⟨r.text, r.metadata, r.score, 0⟩ := by
            rw [setVec, hid']
            exact findVal_dictSet_self m id _
          simpa [hid] using this
      | false =>
          have hne : r.chunk_id ≠ id := by simpa using hid
          cases hrf : rest.find? (fun x => x.chunk_id == id) with
          | some x => simp [hid, hrf]
          | none =>
              simp only [hid, hrf]
              exact findVal_dictSet_ne m r.chunk_id _ id hne

theorem findVal_foldl_setBm :
    ∀ (bm : List SearchResult), (bm.map (fun r => r.chunk_id)).Nodup →
    ∀ (m : List (String × FusionEntry)) (id : String),
      findVal (bm.foldl setBm m) id =
        match findVal m id, bm.find? (fun r => r.chunk_id == id) with
        | some e, some r => some { e with bm25_score := r.score }
        | some e, none => some e
        | none, some r => some ⟨r.text, r.metadata, 0, r.score⟩
        | none, none => none := by
  intro bm
  induction bm with
  | nil =>
      intro _ m id
      show findVal m id = _
      cases findVal m id <;> rfl
  | cons r rest ih =>
      intro hb m id
      rw [List.map_cons, List.nodup_cons] at hb
      obtain ⟨hhead, htail⟩ := hb
      rw [List.foldl_cons, ih htail (setBm m r) id, List.find?_cons]
      cases hid : (r.chunk_id == id) with
      | true =>
          have hid' : r.chunk_id = id := by simpa using hid
          have hrest : rest.find? (fun x => x.chunk_id == id) = none := by
            rw [List.find?_eq_none]
            intro x hx hxk
            have hx1 : x.chunk_id = id := by simpa using hxk
            rw [← hid'] at hx1
            have hmem : x.chunk_id ∈ rest.map (fun r => r.chunk_id) :=
              List.mem_map_of_mem (fun r => r.chunk_id) hx
            rw [hx1] at hmem
            exact hhead hmem
          rw [hrest]
          have hself : findVal (setBm m r) id =
              match findVal m id with
              | some e => some { e with bm25_score := r.score }
              | none => some ⟨r.text, r.metadata, 0, r.score⟩ := by
            rw [setBm, hid', findVal_dictUpd_self m id
              (fun e => { e with bm25_score := r.score })
              ⟨r.text, r.metadata, 0, r.score⟩]
            cases findVal m id <;> rfl
          rw [hself]
          cases findVal m id <;> rfl
      | false =>
          have hne : r.chunk_id ≠ id := by simpa using hid
          have hkeep : findVal (setBm m r) id = findVal m id :=
            findVal_dictUpd_ne m r.chunk_id _ _ id hne
          rw [hkeep]

theorem findVal_buildScoreMap (vec bm : List SearchResult)
    (hv : (vec.map (fun r => r.chunk_id)).Nodup)
    (hb : (bm.map (fun r => r.chunk_id)).Nodup) (id : String) :
    findVal (buildScoreMap vec bm) id =
      match vec.find? (fun r => r.chunk_id == id),
            bm.find? (fun r => r.chunk_id == id) with
      | some v, some b => some ⟨v.text, v.metadata, v.score, b.score⟩
      | some v, none => some ⟨v.text, v.metadata, v.score, 0⟩
      | none, some b => some ⟨b.text, b.metadata, 0, b.score⟩
      | none, none => none := by
  rw [buildScoreMap, findVal_foldl_setBm bm hb _ id,
    findVal_foldl_setVec vec hv [] id]
  cases vec.find? (fun r => r.chunk_id == id) <;>
    cases bm.find? (fun r => r.chunk_id == id) <;> rfl

theorem lookupScore_fuse (alpha : ℚ) (vec bm : List SearchResult) (id : String) :
    lookupScore (fuse alpha vec bm) id =
      (findVal (buildScoreMap vec bm) id).map
        (fun e => alpha * e.vector_score + (1 - alpha) * e.bm25_score) := by
  have hcomp : ((fun r : SearchResult => r.chunk_id == id) ∘
      (fun p : String × FusionEntry =>
        ({ chunk_id := p.1, text := p.2.text,
           score := alpha * p.2.vector_score + (1 - alpha) * p.2.bm25_score,
           metadata := p.2.metadata } : SearchResult))) =
      (fun p : String × FusionEntry => p.1 == id) := rfl
  rw [fuse, lookupScore, findVal, List.find?_map, hcomp]
  cases (buildScoreMap vec bm).find? (fun p => p.1 == id) <;> rfl

end HybridSearch

/-! ## Claim C2 -/

/-- Claim C2: hybrid fusion unions the vector and lexical result sets by
chunk id and scores every union member by
`alpha * vector_score + (1 - alpha) * lexical_score` over the per-set
normalized scores, a missing set contributing `0.0`.  The per-set inputs
are keyed by distinct chunk ids (they are result sets). -/
theorem hybrid_fusion_union (alpha : ℚ) (vec bm : List SearchResult)
    (hv : (vec.map (fun r => r.chunk_id)).Nodup)
    (hb : (bm.map (fun r => r.chunk_id)).Nodup) (id : String) :
    HybridSearch.lookupScore (HybridSearch.fuse alpha vec bm) id =
      match HybridSearch.lookupScore vec id, HybridSearch.lookupScore bm id with
      | some v, some b => some (alpha * v + (1 - alpha) * b)
      | some v, none => some (alpha * v + (1 - alpha) * 0)
      | none, some b => some (alpha * 0 + (1 - alpha) * b)
      | none, none => none := by
  rw [HybridSearch.lookupScore_fuse alpha vec bm id,
    HybridSearch.findVal_buildScoreMap vec bm hv hb id,
    HybridSearch.lookupScore, HybridSearch.lookupScore]
  cases vec.find? (fun r => r.chunk_id == id) <;>
    cases bm.find? (fun r => r.chunk_id == id) <;> simp

/-- Concrete instantiation of `hybrid_fusion_union` at `alpha = 0.6` with a
chunk present only in the vector set: the lexical side contributes zero. -/
theorem hybrid_fusion_union_witness :
    HybridSearch.lookupScore
        (HybridSearch.fuse (6/10) [⟨"a", "ta", 9/10, []⟩] [⟨"b", "tb", 1/2, []⟩])
        "a" =
      some ((6/10) * (9/10) + (1 - 6/10) * 0) := by
  have h := hybrid_fusion_union (6/10) [⟨"a", "ta", 9/10, []⟩]
    [⟨"b", "tb", 1/2, []⟩] (by simp) (by simp) "a"
  rw [show HybridSearch.lookupScore [⟨"a", "ta", 9/10, []⟩] "a" = some (9/10)
      from rfl,
    show HybridSearch.lookupScore [⟨"b", "tb", 1/2, []⟩] "a" = none from rfl] at h
  exact h

/-! ## Lemmas about the multi-variant merge -/

namespace Retriever

theorem omax_assoc (a b c : Option ℚ) :
    omax (omax a b) c = omax a (omax b c) := by
  cases a <;> cases b <;> cases c <;> simp [omax, max_assoc]

theorem max?_cons_omax (a : ℚ) (l : List ℚ) :
    (a :: l).max? = omax (some a) l.max? := by
  cases l with
  | nil => rfl
  | cons x xs =>
      show some (xs.foldl max (max a x)) = omax (some a) (some (xs.foldl max x))
      rw [foldl_max_comm]
      rfl

theorem mergeStep_find_self (m : List (String × SearchResult)) (r : SearchResult) :
    (findVal (mergeStep m r) r.chunk_id).map (fun x => x.score) =
      omax ((findVal m r.chunk_id).map (fun x => x.score)) (some r.score) := by
  cases h : findVal m r.chunk_id with
  | none =>
      have hms : mergeStep m r = dictSet m r.chunk_id r := by rw [mergeStep, h]
      rw [hms, findVal_dictSet_self]
      rfl
  | some old =>
      have hms : mergeStep m r =
          if old.score < r.score then dictSet m r.chunk_id r else m := by
        rw [mergeStep, h]
      by_cases hlt : old.score < r.score
      · rw [hms, if_pos hlt, findVal_dictSet_self]
        show some r.score = some (max old.score r.score)
        rw [max_eq_right (le_of_lt hlt)]
      · rw [hms, if_neg hlt, h]
        show some old.score = some (max old.score r.score)
        rw [max_eq_left (not_lt.mp hlt)]

theorem mergeStep_find_ne (m : List (String × SearchResult)) (r : SearchResult)
    (id : String) (hne : r.chunk_id ≠ id) :
    findVal (mergeStep m r) id = findVal m id := by
  cases h : findVal m r.chunk_id with
  | none =>
      have hms : mergeStep m r = dictSet m r.chunk_id r := by rw [mergeStep, h]
      rw [hms, findVal_dictSet_ne m _ _ id hne]
  | some old =>
      have hms : mergeStep m r =
          if old.score < r.score then dictSet m r.chunk_id r else m := by
        rw [mergeStep, h]
      by_cases hlt : old.score < r.score
      · rw [hms, if_pos hlt, findVal_dictSet_ne m _ _ id hne]
      · rw [hms, if_neg hlt]

theorem foldl_mergeStep_find (l : List SearchResult) :
    ∀ (m : List (String × SearchResult)) (id : String),
      (findVal (l.foldl mergeStep m) id).map (fun x => x.score) =
        omax ((findVal m id).map (fun x => x.score)) (variantScores l id).max? := by
  induction l with
  | nil =>
      intro m id
      show (findVal m id).map (fun x => x.score) = _
      cases findVal m id <;> rfl
  | cons r rest ih =>
      intro m id
      rw [List.foldl_cons, ih (mergeStep m r) id]
      by_cases hid : r.chunk_id = id
      · subst hid
        rw [mergeStep_find_self]
        have hv : variantScores (r :: rest) r.chunk_id =
            r.score :: variantScores rest r.chunk_id := by
          simp [variantScores, List.filter_cons]
        rw [hv, max?_cons_omax, omax_assoc]
      · rw [mergeStep_find_ne m r id hid]
        have hv : variantScores (r :: rest) id = variantScores rest id := by
          simp [variantScores, List.filter_cons, hid]
        rw [hv]

theorem mergeVariants_eq_foldl_flatten (sets : List (List SearchResult)) :
    mergeVariants sets = sets.flatten.foldl mergeStep [] := by
  rw [mergeVariants]
  have h : ∀ (ss : List (List SearchResult)) (m : List (String × SearchResult)),
      ss.foldl (fun m rs => rs.foldl mergeStep m) m = ss.flatten.foldl mergeStep m := by
    intro ss
    induction ss with
    | nil => intro m; rfl
    | cons s rest ih =>
        intro m
        rw [List.foldl_cons, ih (s.foldl mergeStep m), List.flatten_cons,
          List.foldl_append]
  exact h sets []

end Retriever

/-! ## Claim C3 -/

/-- Claim C3: the multi-variant merge of the orchestrator keeps, for every
chunk id, the maximum score observed across all variant result sets (never
the sum or average): the score stored in the merged `all_results` dict for
a chunk id equals the `List.max?` of all scores the concatenated variant
sets assign to that id. -/
theorem merge_keeps_max_score (sets : List (List SearchResult)) (id : String) :
    (findVal (Retriever.mergeVariants sets) id).map (fun r => r.score) =
      (Retriever.variantScores sets.flatten id).max? := by
  rw [Retriever.mergeVariants_eq_foldl_flatten, Retriever.foldl_mergeStep_find]
  rfl

/-- Concrete check of `merge_keeps_max_score`: variant A scores chunk `X`
at `0.9`, variant B scores it at `0.2`; the merged score is `0.9`. -/
theorem merge_keeps_max_score_witness :
    (findVal
        (Retriever.mergeVariants
          [[⟨"X", "tx", 9/10, []⟩], [⟨"X", "tx", 2/10, []⟩]])
        "X").map (fun r => r.score) =
      some (9/10) := by
  rw [merge_keeps_max_score]
  have h : Retriever.variantScores
      ([[⟨"X", "tx", 9/10, []⟩], [⟨"X", "tx", 2/10, []⟩]] :
        List (List SearchResult)).flatten "X" = [9/10, 2/10] := rfl
  rw [h]
  show some (max (9/10 : ℚ) (2/10)) = some (9/10)
  rw [max_eq_left (by norm_num)]

/-! ## Claim C4 -/

/-- Claim C4 counterexample: with a ranker that raises, an explicit
`top_n = 0` does not return the first `0` candidates: the Python idiom
`top_n = top_n or self.top_n` coerces `0` to the default
`RERANKER_TOP_N = 3`, so the whole candidate list comes back. -/
theorem rerank_topn_zero_counterexample :
    ReRanker.rerank Examples.errRanker "q" [Examples.rC4] (some 0) = [Examples.rC4] ∧
    ReRanker.rerank Examples.errRanker "q" [Examples.rC4] (some 0) ≠
      ([Examples.rC4].take 0) := by
  constructor
  · rfl
  · intro h
    rw [show ReRanker.rerank Examples.errRanker "q" [Examples.rC4] (some 0) =
        [Examples.rC4] from rfl] at h
    simp at h

/-- Claim C4 (amended): for every query, candidate list and positive
`top_n` (or an omitted `top_n`, which selects `RERANKER_TOP_N`), if the
ranker collaborator raises on the call then `rerank` returns exactly the
first `top_n` input candidates unchanged, and the error never reaches the
caller. -/
theorem rerank_error_fallback
    (ranker : String → List SearchResult → Except Unit (List RankedItem))
    (query : String) (results : List SearchResult) (top_n : Nat) (e : Unit)
    (h : ranker query results = Except.error e) :
    (0 < top_n →
      ReRanker.rerank ranker query results (some top_n) = results.take top_n) ∧
    ReRanker.rerank ranker query results none = results.take RERANKER_TOP_N := by
  constructor
  · intro hn
    cases results with
    | nil => simp [ReRanker.rerank]
    | cons r rs =>
        simp [ReRanker.rerank, h, resolveNat, Nat.pos_iff_ne_zero.mp hn]
  · cases results with
    | nil => simp [ReRanker.rerank]
    | cons r rs => simp [ReRanker.rerank, h, resolveNat]

/-- Concrete instantiation of `rerank_error_fallback`. -/
theorem rerank_error_fallback_witness :
    ReRanker.rerank Examples.errRanker "q" [Examples.rC4] (some 2) =
      [Examples.rC4].take 2 ∧
    ReRanker.rerank Examples.errRanker "q" [Examples.rC4] none =
      [Examples.rC4].take RERANKER_TOP_N :=
  ⟨(rerank_error_fallback Examples.errRanker "q" [Examples.rC4] 2 () rfl).1
      (by norm_num),
    (rerank_error_fallback Examples.errRanker "q" [Examples.rC4] 2 () rfl).2⟩

/-! ## Claim C5 -/

/-- Claim C5 counterexample: when the HyDE step is enabled and its chat
call raises, `expand` does not return a sequence at all: the exception
propagates, so no returned sequence carries the original query. -/
theorem expand_error_counterexample :
    QueryExpander.expand Examples.errOracle "q" true false = Except.error () ∧
    ∀ qs : List String,
      QueryExpander.expand Examples.errOracle "q" true false ≠ Except.ok qs := by
  refine ⟨rfl, ?_⟩
  intro qs h
  rw [show QueryExpander.expand Examples.errOracle "q" true false =
      Except.error () from rfl] at h
  cases h

/-- Claim C5 (amended): whenever `expand` does return a sequence, in
particular whenever both expansions are disabled, the first element is the
original query; an enabled expansion step that raises propagates the error
instead of returning a sequence. -/
theorem expand_keeps_original_first (o : ExpanderOracle) (query : String)
    (use_hyde use_multi : Bool) :
    (QueryExpander.expand o query false false = Except.ok [query]) ∧
    (∀ qs : List String,
      QueryExpander.expand o query use_hyde use_multi = Except.ok qs →
        qs.head? = some query) := by
  constructor
  · rfl
  · intro qs h
    rw [QueryExpander.expand] at h
    cases use_hyde with
    | false =>
        cases use_multi with
        | false =>
            have h2 : Except.ok [query] = Except.ok qs := h
            rw [← Except.ok.inj h2]
            rfl
        | true =>
            cases hm : o.multiGen query with
            | error e =>
                rw [show (QueryExpander.multi_query o query) =
                    Except.error e by rw [QueryExpander.multi_query, hm]; rfl] at h
                cases h
            | ok t =>
                rw [show (QueryExpander.multi_query o query) =
                    Except.ok (QueryExpander.parseMulti t) by
                  rw [QueryExpander.multi_query, hm]; rfl] at h
                have h2 : Except.ok ([query] ++ QueryExpander.parseMulti t) =
                    Except.ok qs := h
                rw [← Except.ok.inj h2]
                rfl
    | true =>
        cases hh : o.hydeGen query with
        | error e =>
            rw [show (QueryExpander.hyde o query) = Except.error e from hh] at h
            cases use_multi <;> cases h
        | ok hp =>
            rw [show (QueryExpander.hyde o query) = Except.ok hp from hh] at h
            cases use_multi with
            | false =>
                have h2 : Except.ok ([query] ++ [hp]) = Except.ok qs := h
                rw [← Except.ok.inj h2]
                rfl
            | true =>
                cases hm : o.multiGen query with
                | error e =>
                    rw [show (QueryExpander.multi_query o query) =
                        Except.error e by rw [QueryExpander.multi_query, hm]; rfl] at h
                    cases h
                | ok t =>
                    rw [show (QueryExpander.multi_query o query) =
                        Except.ok (QueryExpander.parseMulti t) by
                      rw [QueryExpander.multi_query, hm]; rfl] at h
                    have h2 : Except.ok
                        (([query] ++ [hp]) ++ QueryExpander.parseMulti t) =
                        Except.ok qs := h
                    rw [← Except.ok.inj h2]
                    rfl

/-- Concrete instantiation of `expand_keeps_original_first` with both
expansions enabled and answering collaborators. -/
theorem expand_keeps_original_first_witness :
    QueryExpander.expand Examples.okOracle "q" true true =
      Except.ok ["q", "A hypothetical clause.", "A", "B", "C"] ∧
    (["q", "A hypothetical clause.", "A", "B", "C"] : List String).head? =
      some "q" := by
  have h1 : QueryExpander.expand Examples.okOracle "q" true true =
      Except.ok ["q", "A hypothetical clause.", "A", "B", "C"] := rfl
  exact ⟨h1, (expand_keeps_original_first Examples.okOracle "q" true true).2 _ h1⟩

/-! ## Claim C6 -/

/-- Claim C6 counterexample: with a Cyrillic query, a successfully detected
English corpus, and a translation call that raises, `retrieve` aborts with
the error instead of continuing with the untranslated query: the
`translate_query` call inside `retrieve` is not guarded by a `try`. -/
theorem retrieve_translation_error_aborts :
    Retriever.retrieve Examples.cfgT Examples.collabT "привет мир" (some 2)
        false false = Except.error () := rfl

/-- Claim C6 (amended): errors raised during language detection never abort
`retrieve` — when the corpus peek raises, or the language-detection chat
call raises on every input, `_detect_doc_language` absorbs the error and
returns `none`, and the translation step hands the original, untranslated
query to the rest of the pipeline.  Errors raised by the translation call
itself, by contrast, propagate (see the counterexample). -/
theorem detection_errors_never_abort (cfg : RetrieverCfg) (c : Collab)
    (query : String)
    (hdet : c.peek = Except.error () ∨ ∀ s, c.detectLLM s = Except.error ()) :
    Retriever._detect_doc_language c.pyAlpha c.peek c.detectLLM
        (hasExpander cfg) = none ∧
    Retriever.translationStep cfg c query = Except.ok query := by
  have hd : Retriever._detect_doc_language c.pyAlpha c.peek c.detectLLM
      (hasExpander cfg) = none := by
    rcases hdet with hp | hl
    · rw [Retriever._detect_doc_language, hp]
      rfl
    · cases hpk : c.peek with
      | error e =>
          rw [Retriever._detect_doc_language]
          rfl
      | ok docs =>
          rw [Retriever._detect_doc_language]
          cases docs with
          | nil => rfl
          | cons d rest =>
              show (match (do
                  let text := String.mk (d.toList.take 200)
                  let total_alpha := (text.toList.filter c.pyAlpha).length
                  if total_alpha = 0 then pure none
                  else if !hasExpander cfg then pure none
                  else do
                    let lang ← c.detectLLM text
                    pure (some (pyStrip lang)) :
                    Except Unit (Option String)) with
                | Except.ok r => r
                | Except.error _ => none) = none
              by_cases h0 : ((String.mk (d.toList.take 200)).toList.filter
                  c.pyAlpha).length = 0
              · rw [if_pos h0]
                rfl
              · rw [if_neg h0]
                by_cases hexp : hasExpander cfg
                · rw [hexp, hl (String.mk (d.toList.take 200))]
                  rfl
                · rw [Bool.not_eq_true] at hexp
                  rw [hexp]
                  rfl
  refine ⟨hd, ?_⟩
  rw [Retriever.translationStep]
  by_cases hcfg : (cfg.use_query_translation && hasExpander cfg) = true
  · rw [if_pos hcfg]
    cases Retriever._detect_query_language c.pyAlpha query with
    | none => rfl
    | some ql =>
        rw [hd]
        rfl
  · rw [if_neg hcfg]
    rfl

/-- Concrete instantiation of `detection_errors_never_abort`: the corpus
peek raises, detection yields `none`, and the original query flows on. -/
theorem detection_errors_never_abort_witness :
    Retriever._detect_doc_language Examples.collabE.pyAlpha Examples.collabE.peek
        Examples.collabE.detectLLM (hasExpander Examples.cfgT) = none ∧
    Retriever.translationStep Examples.cfgT Examples.collabE "привет" =
      Except.ok "привет" :=
  detection_errors_never_abort Examples.cfgT Examples.collabE "привет" (Or.inl rfl)

/-! ## Claim C8 -/

/-- Claim C8: for every chunked document — whatever the two text splitters
and the uuid stream return — every child chunk references, via
`parent_id`, the `chunk_id` of some chunk in the produced parent list of
the same document, and every parent chunk has `parent_id = none`. -/
theorem chunk_document_referential_integrity
    (splitParent splitChild : String → List String) (genId : Nat → String)
    (document : LoadedDocument) :
    (∀ c ∈ (chunk_document splitParent splitChild genId document).child_chunks,
      ∃ p ∈ (chunk_document splitParent splitChild genId document).parent_chunks,
        c.parent_id = some p.chunk_id) ∧
    (∀ p ∈ (chunk_document splitParent splitChild genId document).parent_chunks,
      p.parent_id = none) := by
  have hstep : ∀ (page : Page) (acc : ChunkAcc) (ptext : String),
      ((∀ c ∈ acc.children, ∃ p ∈ acc.parents, c.parent_id = some p.chunk_id) ∧
        (∀ p ∈ acc.parents, p.parent_id = none)) →
      ((∀ c ∈ (chunkParentSpan splitChild genId document.filename page acc
            ptext).children,
          ∃ p ∈ (chunkParentSpan splitChild genId document.filename page acc
            ptext).parents, c.parent_id = some p.chunk_id) ∧
        (∀ p ∈ (chunkParentSpan splitChild genId document.filename page acc
            ptext).parents, p.parent_id = none)) := by
    intro page acc ptext hP
    obtain ⟨hc, hp⟩ := hP
    constructor
    · intro c hcmem
      rcases List.mem_append.mp hcmem with hold | hnew
      · obtain ⟨p, hpmem, hpid⟩ := hc c hold
        exact ⟨p, List.mem_append_left _ hpmem, hpid⟩
      · rcases List.mem_map.mp hnew with ⟨ic, _, rfl⟩
        refine ⟨{ chunk_id := genId acc.next
                  text := ptext
                  metadata := [("chunk_type", "parent"),
                    ("filename", document.filename)] ++ page.meta
                  parent_id := none }, ?_, rfl⟩
        exact List.mem_append_right _ (List.mem_singleton.mpr rfl)
    · intro p hpmem
      rcases List.mem_append.mp hpmem with hold | hnew
      · exact hp p hold
      · rw [List.mem_singleton.mp hnew]
  have hfin := foldl_preserves
    (fun acc page => (splitParent page.text).foldl
      (chunkParentSpan splitChild genId document.filename page) acc)
    (fun a => (∀ c ∈ a.children, ∃ p ∈ a.parents, c.parent_id = some p.chunk_id) ∧
      (∀ p ∈ a.parents, p.parent_id = none))
    (fun a page ha => foldl_preserves
      (chunkParentSpan splitChild genId document.filename page)
      (fun b => (∀ c ∈ b.children, ∃ p ∈ b.parents, c.parent_id = some p.chunk_id) ∧
        (∀ p ∈ b.parents, p.parent_id = none))
      (fun b t hb => hstep page b t hb)
      (splitParent page.text) a ha)
    document.pages ⟨0, [], []⟩
    ⟨fun c h => absurd h (List.not_mem_nil c), fun p h => absurd h (List.not_mem_nil p)⟩
  exact ⟨hfin.1, hfin.2⟩

/-! ## Lemmas about the orchestrator pipeline -/

theorem except_bind_ok {α β : Type} (a : α) (f : α → Except Unit β) :
    (Except.ok a >>= f) = f a := rfl

theorem except_bind_err {α β : Type} (e : Unit) (f : α → Except Unit β) :
    ((Except.error e : Except Unit α) >>= f) = Except.error e := rfl

namespace Retriever

theorem search_empty_corpus (vq : String → Nat → List VectorHit)
    (bs : List String → List ℚ) (alpha : ℚ) (q : String) (k? : Option Nat)
    (hv : ∀ qq n, vq qq n = []) :
    HybridSearch.search [] vq bs alpha q k? = [] := by
  simp only [HybridSearch.search, hv]
  simp only [List.take_eq_nil_iff]
  exact Or.inr rfl

theorem mergeVariants_all_nil (qs : List String) :
    mergeVariants (qs.map (fun _ => ([] : List SearchResult))) = [] := by
  induction qs with
  | nil => rfl
  | cons q rest ih => exact ih

theorem searchCandidates_empty (c : Collab) (hc : c.corpus = [])
    (hv : ∀ q n, c.vecQuery q n = []) (queries : List String) (k : Nat) :
    searchCandidates c queries k = [] := by
  rw [searchCandidates]
  have hmap : queries.map (fun q =>
      HybridSearch.search c.corpus c.vecQuery c.bm25Scores c.alpha q
        (some (k * 2))) = queries.map (fun _ => []) := by
    apply List.map_congr_left
    intro q _
    rw [hc]
    exact search_empty_corpus c.vecQuery c.bm25Scores c.alpha q (some (k * 2)) hv
  rw [hmap, mergeVariants_all_nil]
  rfl

end Retriever

/-! ## Claim C9 -/

/-- Claim C9: over an empty stored corpus, whenever `retrieve` returns a
result it is the empty `RetrievalResult` (empty results, zero candidates,
empty parent context); and with the optional expansion and translation
stages disabled it does return, with no error, exactly that empty result. -/
theorem retrieve_empty_corpus (cfg : RetrieverCfg) (c : Collab) (query : String)
    (k? : Option Nat) (use_hyde use_multi_query : Bool)
    (hc : c.corpus = []) (hv : ∀ q n, c.vecQuery q n = []) :
    (∀ res, Retriever.retrieve cfg c query k? use_hyde use_multi_query =
        Except.ok res →
      res.results = [] ∧ res.total_candidates = 0 ∧ res.parent_context = []) ∧
    (cfg.use_query_expansion = false → cfg.use_query_translation = false →
      Retriever.retrieve cfg c query k? use_hyde use_multi_query =
        Except.ok ⟨[], [query], 0, []⟩) := by
  have hok : ∀ sq qs, Retriever.translationStep cfg c query = Except.ok sq →
      Retriever.expansionStep cfg c sq use_hyde use_multi_query = Except.ok qs →
      Retriever.retrieve cfg c query k? use_hyde use_multi_query =
        Except.ok ⟨[], qs, 0, []⟩ := by
    intro sq qs ht hq
    rw [Retriever.retrieve, ht, except_bind_ok, hq, except_bind_ok,
      Retriever.searchCandidates_empty c hc hv qs
        (resolveNat k? RETRIEVAL_TOP_K)]
    cases cfg.use_reranking <;>
      simp [List.take_nil, Retriever._get_parent_context] <;> rfl
  constructor
  · intro res hres
    cases ht : Retriever.translationStep cfg c query with
    | error e =>
        rw [Retriever.retrieve, ht, except_bind_err] at hres
        cases hres
    | ok sq =>
        cases hq : Retriever.expansionStep cfg c sq use_hyde use_multi_query with
        | error e =>
            rw [Retriever.retrieve, ht, except_bind_ok, hq, except_bind_err]
              at hres
            cases hres
        | ok qs =>
            have h2 := (hok sq qs ht hq).symm.trans hres
            have h3 := Except.ok.inj h2
            rw [← h3]
            exact ⟨rfl, rfl, rfl⟩
  · intro hexp htr
    have ht : Retriever.translationStep cfg c query = Except.ok query := by
      rw [Retriever.translationStep, htr]
      rfl
    have hq : Retriever.expansionStep cfg c query use_hyde use_multi_query =
        Except.ok [query] := by
      rw [Retriever.expansionStep, hasExpander, hexp, htr]
      rfl
    exact hok query [query] ht hq

/-- Concrete instantiation of `retrieve_empty_corpus` over the empty-corpus
collaborators: `retrieve` succeeds with the empty result. -/
theorem retrieve_empty_corpus_witness :
    Retriever.retrieve Examples.cfgPlain Examples.collabE "q" none false false =
      Except.ok ⟨[], ["q"], 0, []⟩ :=
  (retrieve_empty_corpus Examples.cfgPlain Examples.collabE "q" none false false
    rfl (fun _ _ => rfl)).2 rfl rfl

/-! ## Lemmas about the rerank stage of the orchestrator -/

theorem rerank_length_le
    (ranker : String → List SearchResult → Except Unit (List RankedItem))
    (query : String) (results : List SearchResult) (n : Nat) (hn : n ≠ 0) :
    (ReRanker.rerank ranker query results (some n)).length ≤ n := by
  rw [ReRanker.rerank, show resolveNat (some n) RERANKER_TOP_N = n by
    rw [resolveNat]; exact if_neg hn]
  by_cases he : results.isEmpty = true
  · rw [if_pos he]
    exact Nat.zero_le n
  · rw [if_neg he]
    cases ranker query results with
    | ok items =>
        rw [List.length_map]
        exact List.length_take_le n items
    | error e => exact List.length_take_le n results

theorem isEmpty_false_of_ne_nil {α : Type} (l : List α) (h : l ≠ []) :
    l.isEmpty = false := by
  cases l with
  | nil => exact absurd rfl h
  | cons x xs => rfl

/-! ## Claim C7 -/

/-- Claim C7: given any outcome `sq` of the translation step (possibly a
translated query different from `query`) and any expanded variant list
`qs`, when reranking is enabled and the merged candidate set is non-empty
the pipeline result is the reranker applied to the original caller-supplied
`query` with `top_n = k` (and is at most `k` long); when reranking is
disabled or the candidates are empty, the result is the first `k` fused
candidates. -/
theorem retrieve_rerank_stage (cfg : RetrieverCfg) (c : Collab) (query : String)
    (k : Nat) (use_hyde use_multi_query : Bool) (sq : String) (qs : List String)
    (res : RetrievalResult) (hk : k ≠ 0)
    (h1 : Retriever.translationStep cfg c query = Except.ok sq)
    (h2 : Retriever.expansionStep cfg c sq use_hyde use_multi_query =
      Except.ok qs)
    (hres : Retriever.retrieve cfg c query (some k) use_hyde use_multi_query =
      Except.ok res) :
    (cfg.use_reranking = true → Retriever.searchCandidates c qs k ≠ [] →
      res.results = ReRanker.rerank c.ranker query
          (Retriever.searchCandidates c qs k) (some k) ∧
      res.results.length ≤ k) ∧
    ((cfg.use_reranking = false ∨ Retriever.searchCandidates c qs k = []) →
      res.results = (Retriever.searchCandidates c qs k).take k) := by
  rw [Retriever.retrieve, h1, except_bind_ok, h2, except_bind_ok,
    show resolveNat (some k) RETRIEVAL_TOP_K = k by
      rw [resolveNat]; exact if_neg hk] at hres
  have h3 : res = _ := (Except.ok.inj hres).symm
  have hresults : res.results =
      (if (cfg.use_reranking && !(Retriever.searchCandidates c qs k).isEmpty) =
          true then
        ReRanker.rerank c.ranker query (Retriever.searchCandidates c qs k)
          (some k)
      else (Retriever.searchCandidates c qs k).take k) := by
    rw [h3]
  constructor
  · intro hrr hne
    have hcond : (cfg.use_reranking &&
        !(Retriever.searchCandidates c qs k).isEmpty) = true := by
      rw [hrr, isEmpty_false_of_ne_nil _ hne]
      rfl
    refine ⟨?_, ?_⟩
    · rw [hresults, hcond]
      rfl
    · rw [hresults, hcond]
      show (ReRanker.rerank c.ranker query (Retriever.searchCandidates c qs k)
        (some k)).length ≤ k
      exact rerank_length_le c.ranker query _ k hk
  · intro hdis
    have hcond : (cfg.use_reranking &&
        !(Retriever.searchCandidates c qs k).isEmpty) = false := by
      rcases hdis with hfalse | hempty
      · rw [hfalse]
        rfl
      · rw [hempty]
        rw [Bool.and_comm]
        rfl
    rw [hresults, hcond]
    rfl

/-! ## Evaluation of the one-chunk pipeline -/

theorem search_collab1_eval :
    HybridSearch.search Examples.collab1.corpus Examples.collab1.vecQuery
        Examples.collab1.bm25Scores Examples.collab1.alpha "q" (some 2) =
      [Examples.rr] := by
  show HybridSearch.search [⟨"c1", "termination notice", []⟩]
      (fun _ _ => [⟨"c1", "termination notice", [], 1/2⟩]) (fun _ => [2])
      HYBRID_ALPHA "q" (some 2) = [Examples.rr]
  rw [HybridSearch.search]
  norm_num [HybridSearch._vector_search, HybridSearch._bm25_search,
    HybridSearch._normalize_scores, HybridSearch.npMin, HybridSearch.npMax,
    HybridSearch.argsortDesc, HybridSearch.fuse, HybridSearch.buildScoreMap,
    HybridSearch.setVec, HybridSearch.setBm, dictSet, dictUpd, findVal,
    sortByDesc, insertByDesc, resolveNat, Examples.rr, List.range_succ]

theorem searchCandidates_collab1 :
    Retriever.searchCandidates Examples.collab1 ["q"] 1 = [Examples.rr] := by
  rw [Retriever.searchCandidates,
    show (["q"].map (fun q => HybridSearch.search Examples.collab1.corpus
        Examples.collab1.vecQuery Examples.collab1.bm25Scores
        Examples.collab1.alpha q (some (1 * 2)))) =
      [HybridSearch.search Examples.collab1.corpus Examples.collab1.vecQuery
        Examples.collab1.bm25Scores Examples.collab1.alpha "q" (some 2)]
      from rfl,
    search_collab1_eval]
  rfl

theorem retrieve_collab1 :
    Retriever.retrieve Examples.cfgRerank Examples.collab1 "q" (some 1)
        false false =
      Except.ok ⟨[Examples.rr], ["q"], 1, []⟩ := by
  rw [Retriever.retrieve,
    show Retriever.translationStep Examples.cfgRerank Examples.collab1 "q" =
      Except.ok "q" from rfl,
    except_bind_ok,
    show Retriever.expansionStep Examples.cfgRerank Examples.collab1 "q"
        false false = Except.ok ["q"] from rfl,
    except_bind_ok,
    show resolveNat (some 1) RETRIEVAL_TOP_K = 1 from rfl,
    searchCandidates_collab1]
  rfl

/-- Concrete instantiation of `retrieve_rerank_stage` over the one-chunk
corpus with reranking enabled: the result is the (falling-back) reranker
output on the original query, truncated to `k = 1`. -/
theorem retrieve_rerank_stage_witness :
    ([Examples.rr] : List SearchResult) =
      ReRanker.rerank Examples.collab1.ranker "q"
        (Retriever.searchCandidates Examples.collab1 ["q"] 1) (some 1) ∧
    ([Examples.rr] : List SearchResult).length ≤ 1 := by
  have h := retrieve_rerank_stage Examples.cfgRerank Examples.collab1 "q" 1
    false false "q" ["q"] ⟨[Examples.rr], ["q"], 1, []⟩ (by norm_num) rfl rfl
    retrieve_collab1
  have h2 := h.1 rfl (by
    rw [searchCandidates_collab1]
    exact List.cons_ne_nil _ _)
  exact ⟨h2.1, h2.2⟩

/-! ## Lemmas bounding hybrid scores -/

theorem foldl_preserves_mem {α β : Type} (f : β → α → β) (P : β → Prop) :
    ∀ (l : List α), (∀ b a, a ∈ l → P b → P (f b a)) →
      ∀ b, P b → P (l.foldl f b) := by
  intro l
  induction l with
  | nil => intro _ b hb; exact hb
  | cons x xs ih =>
      intro h b hb
      exact ih (fun b2 a ha hb2 => h b2 a (List.mem_cons_of_mem x ha) hb2)
        (f b x) (h b x (List.mem_cons_self x xs) hb)

theorem mem_dictUpd {β : Type} (m : List (String × β)) (key : String)
    (upd : β → β) (ins : β) (p : String × β) (hp : p ∈ dictUpd m key upd ins) :
    p ∈ m ∨ (∃ q ∈ m, p = (q.1, upd q.2)) ∨ p = (key, ins) := by
  rw [dictUpd] at hp
  by_cases h : m.any (fun x => x.1 == key) = true
  · rw [if_pos h] at hp
    rcases List.mem_map.mp hp with ⟨q, hq, rfl⟩
    by_cases hqk : (q.1 == key) = true
    · right; left
      exact ⟨q, hq, by rw [if_pos hqk]⟩
    · left
      rw [if_neg hqk]
      exact hq
  · rw [if_neg h] at hp
    rcases List.mem_append.mp hp with h1 | h1
    · left; exact h1
    · right; right; exact List.mem_singleton.mp h1

namespace HybridSearch

theorem vector_search_bounds (hits : List VectorHit) (r : SearchResult)
    (hr : r ∈ _vector_search hits) : 0 ≤ r.score ∧ r.score ≤ 1 := by
  rw [_vector_search] at hr
  by_cases he : hits.isEmpty = true
  · rw [if_pos he] at hr
    cases hr
  · rw [if_neg he] at hr
    rcases List.mem_map.mp hr with ⟨p, hp, rfl⟩
    exact mem_normalize_bounds _ p.2 (List.of_mem_zip hp).2

theorem bm25_search_bounds (corpus : List CorpusEntry)
    (bs : List String → List ℚ) (query : String) (k : Nat) (r : SearchResult)
    (hr : r ∈ _bm25_search corpus bs query k) : 0 ≤ r.score ∧ r.score ≤ 1 := by
  rw [_bm25_search] at hr
  by_cases he : corpus.isEmpty = true
  · rw [if_pos he] at hr
    cases hr
  · rw [if_neg he] at hr
    rcases List.mem_map.mp hr with ⟨p, hp, rfl⟩
    exact mem_normalize_bounds _ p.2 (List.of_mem_zip hp).2

theorem buildScoreMap_bounds (vec bm : List SearchResult)
    (hvec : ∀ r ∈ vec, 0 ≤ r.score ∧ r.score ≤ 1)
    (hbm : ∀ r ∈ bm, 0 ≤ r.score ∧ r.score ≤ 1) :
    ∀ p ∈ buildScoreMap vec bm,
      (0 ≤ p.2.vector_score ∧ p.2.vector_score ≤ 1) ∧
      (0 ≤ p.2.bm25_score ∧ p.2.bm25_score ≤ 1) := by
  rw [buildScoreMap]
  have h1 := foldl_preserves_mem setVec
    (fun mm => ∀ p ∈ mm,
      (0 ≤ p.2.vector_score ∧ p.2.vector_score ≤ 1) ∧
      (0 ≤ p.2.bm25_score ∧ p.2.bm25_score ≤ 1))
    vec
    (by
      intro mm r hrv hP p hp
      rw [setVec, dictSet] at hp
      rcases mem_dictUpd mm r.chunk_id _ _ p hp with hin | ⟨q, _, rfl⟩ | rfl
      · exact hP p hin
      · exact ⟨hvec r hrv, ⟨le_refl 0, zero_le_one⟩⟩
      · exact ⟨hvec r hrv, ⟨le_refl 0, zero_le_one⟩⟩)
    [] (by intro p hp; cases hp)
  exact foldl_preserves_mem setBm
    (fun mm => ∀ p ∈ mm,
      (0 ≤ p.2.vector_score ∧ p.2.vector_score ≤ 1) ∧
      (0 ≤ p.2.bm25_score ∧ p.2.bm25_score ≤ 1))
    bm
    (by
      intro mm r hrb hP p hp
      rw [setBm] at hp
      rcases mem_dictUpd mm r.chunk_id _ _ p hp with hin | ⟨q, hq, rfl⟩ | rfl
      · exact hP p hin
      · exact ⟨(hP q hq).1, hbm r hrb⟩
      · exact ⟨⟨le_refl 0, zero_le_one⟩, hbm r hrb⟩)
    (vec.foldl setVec []) h1

end HybridSearch

/-! ## Claim C10 -/

/-- Claim C10: for every corpus, collaborator signals, query, `k`, and
`alpha` in `[0, 1]`, every `SearchResult` returned by
`HybridSearch.search` has a score in `[0, 1]`: both signals are min-max
normalized before fusion, a missing signal contributes `0`, and the convex
combination cannot leave the unit interval. -/
theorem search_scores_in_unit (corpus : List CorpusEntry)
    (vq : String → Nat → List VectorHit) (bs : List String → List ℚ)
    (alpha : ℚ) (query : String) (k? : Option Nat)
    (h0 : 0 ≤ alpha) (h1 : alpha ≤ 1) :
    ∀ r ∈ HybridSearch.search corpus vq bs alpha query k?,
      0 ≤ r.score ∧ r.score ≤ 1 := by
  intro r hr
  rw [HybridSearch.search] at hr
  have hr2 := List.mem_of_mem_take hr
  have hr3 := (mem_sortByDesc (fun x => x.score) _ r).mp hr2
  rw [HybridSearch.fuse] at hr3
  rcases List.mem_map.mp hr3 with ⟨p, hp, rfl⟩
  obtain ⟨⟨hv0, hv1⟩, hb0, hb1⟩ := HybridSearch.buildScoreMap_bounds _ _
    (fun x hx => HybridSearch.vector_search_bounds _ x hx)
    (fun x hx => HybridSearch.bm25_search_bounds _ _ _ _ x hx) p hp
  constructor
  · exact add_nonneg (mul_nonneg h0 hv0)
      (mul_nonneg (by linarith) hb0)
  · have hA : alpha * p.2.vector_score ≤ alpha :=
      mul_le_of_le_one_right h0 hv1
    have hB : (1 - alpha) * p.2.bm25_score ≤ 1 - alpha :=
      mul_le_of_le_one_right (by linarith) hb1
    show alpha * p.2.vector_score + (1 - alpha) * p.2.bm25_score ≤ 1
    linarith

/-- Concrete instantiation of `search_scores_in_unit`: the single result of
the one-chunk hybrid search has its score inside the unit interval. -/
theorem search_scores_in_unit_witness :
    0 ≤ Examples.rr.score ∧ Examples.rr.score ≤ 1 :=
  search_scores_in_unit Examples.collab1.corpus Examples.collab1.vecQuery
    Examples.collab1.bm25Scores Examples.collab1.alpha "q" (some 2)
    (by norm_num [Examples.collab1, HYBRID_ALPHA])
    (by norm_num [Examples.collab1, HYBRID_ALPHA])
    Examples.rr
    (by rw [search_collab1_eval]; exact List.mem_singleton.mpr rfl)

end LegalMind
